import Mathlib

/-!
Shallow embedding of the `cycle_cursor` Rust crate (`src/lib.rs`): a cyclic,
bidirectional, peekable cursor over a vector. Machine details kept from the
source: `usize` positions are `Nat`, `isize` offsets are `Int`, and the Rust
primitive cast `as usize` applied during offset normalization is modelled by
two's-complement reduction modulo 2^64. The `panic!` in `get` is modelled by
`Except.error`.
-/

set_option autoImplicit false

namespace CycleCursorSpec

universe u v

/-- Decidable equality for `Except`, so that concrete runs of `get` can be
checked by evaluation. -/
instance {ε : Type u} {α : Type v} [DecidableEq ε] [DecidableEq α] :
    DecidableEq (Except ε α)
  | Except.error e, Except.error f =>
    if h : e = f then Decidable.isTrue (by rw [h])
    else Decidable.isFalse (fun hc => h (Except.error.inj hc))
  | Except.error _, Except.ok _ => Decidable.isFalse (fun hc => Except.noConfusion hc)
  | Except.ok _, Except.error _ => Decidable.isFalse (fun hc => Except.noConfusion hc)
  | Except.ok x, Except.ok y =>
    if h : x = y then Decidable.isTrue (by rw [h])
    else Decidable.isFalse (fun hc => h (Except.ok.inj hc))

/-- Embedding of `struct CycleCursor<T> { inner: Vec<T>, pos: Option<usize> }`
(src/lib.rs lines 128-136). -/
structure CycleCursor (T : Type u) where
  inner : List T
  pos : Option Nat
  deriving Repr, DecidableEq

namespace CycleCursor

variable {T : Type u}

/-- Embedding of `impl<I> From<I> for CycleCursor<I::Item>` (src/lib.rs lines
139-150): collect the source into `inner`, with `pos` starting at `None`. -/
def fromList (l : List T) : CycleCursor T :=
  { inner := l, pos := none }

/-- Two's-complement cast of a 64-bit `isize` value to `usize`
(the Rust primitive cast `v as usize`). -/
def usizeOfIsize (v : Int) : Nat :=
  (v.emod (2 ^ 64)).toNat

/-- Embedding of `CycleCursor::cycle_next` (src/lib.rs lines 152-161):
`pos = (pos.unwrap_or(max_items - 1) + max_items + 1) % max_items`,
a no-op on an empty vector. -/
def cycle_next (c : CycleCursor T) : CycleCursor T :=
  let max_items := c.inner.length
  if max_items = 0 then c
  else { c with pos := some ((c.pos.getD (max_items - 1) + max_items + 1) % max_items) }

/-- Embedding of `CycleCursor::cycle_prev` (src/lib.rs lines 165-174):
`pos = (pos.unwrap_or(max_items) + max_items - 1) % max_items`,
a no-op on an empty vector. -/
def cycle_prev (c : CycleCursor T) : CycleCursor T :=
  let max_items := c.inner.length
  if max_items = 0 then c
  else { c with pos := some ((c.pos.getD max_items + max_items - 1) % max_items) }

/-- Embedding of `CycleCursor::peek` (src/lib.rs lines 204-219): a negative
offset is normalized once by adding the length, the result is cast `as usize`,
and the element at
`(pos.unwrap_or(max_items - 1) + max_items + norm) % max_items` is returned
without moving the cursor. Returns `none` on an empty vector. -/
def peek (c : CycleCursor T) (peek_distance : Int) : Option T :=
  let max_items := c.inner.length
  if max_items = 0 then none
  else
    let norm_peek_distance :=
      if peek_distance < 0 then usizeOfIsize ((max_items : Int) + peek_distance)
      else peek_distance.toNat
    c.inner.get? ((c.pos.getD (max_items - 1) + max_items + norm_peek_distance) % max_items)

/-- Embedding of `CycleCursor::seek` (src/lib.rs lines 252-267): the same
normalization and index computation as `peek`, but the computed index is
written into `pos`. A no-op on an empty vector. -/
def seek (c : CycleCursor T) (seek_distance : Int) : CycleCursor T :=
  let max_items := c.inner.length
  if max_items = 0 then c
  else
    let norm_seek_distance :=
      if seek_distance < 0 then usizeOfIsize ((max_items : Int) + seek_distance)
      else seek_distance.toNat
    { c with pos := some ((c.pos.getD (max_items - 1) + max_items + norm_seek_distance) % max_items) }

/-- Panic message of `CycleCursor::get` (src/lib.rs lines 283-286). -/
def staleMsg : String :=
  "Undefined behavior: Underlying vec was modified. Run cycle_next or cycle_prev to return to standard."

/-- Embedding of `CycleCursor::get` (src/lib.rs lines 275-290): `Except.ok none`
when `pos` is unset, `Except.error` (the `panic!`) when the stored position is
out of range, and otherwise the element at the stored position. -/
def get (c : CycleCursor T) : Except String (Option T) :=
  match c.pos with
  | none => Except.ok none
  | some p =>
    if c.inner.length ≤ p then Except.error staleMsg
    else Except.ok (c.inner.get? p)

/-- Embedding of `impl<T> Deref for CycleCursor<T>` (src/lib.rs lines 293-300):
read access to the backing vector. -/
def deref (c : CycleCursor T) : List T :=
  c.inner

/-- Embedding of `impl<T> DerefMut for CycleCursor<T>` (src/lib.rs lines
302-307): an arbitrary external structural mutation performed through the
mutable reference to the backing vector replaces `inner` and touches nothing
else. -/
def deref_mut (c : CycleCursor T) (newInner : List T) : CycleCursor T :=
  { c with inner := newInner }

/-- One cursor-moving operation of the public API. -/
inductive Op where
  | next : Op
  | prev : Op
  | seekBy : Int → Op
  deriving Repr, DecidableEq

/-- Apply one cursor-moving operation. -/
def applyOp (c : CycleCursor T) : Op → CycleCursor T
  | Op.next => c.cycle_next
  | Op.prev => c.cycle_prev
  | Op.seekBy d => c.seek d

/-- Apply a sequence of cursor-moving operations, left to right. -/
def applyOps (c : CycleCursor T) (ops : List Op) : CycleCursor T :=
  ops.foldl applyOp c

/-- Position invariant: when set, `pos` is a valid index into `inner`. -/
def Inv (c : CycleCursor T) : Prop :=
  ∀ p, c.pos = some p → p < c.inner.length

/-! Basic lemmas about the embedded operations. -/

theorem inner_cycle_next (c : CycleCursor T) : (cycle_next c).inner = c.inner := by
  simp only [cycle_next]
  split <;> rfl

theorem inner_cycle_prev (c : CycleCursor T) : (cycle_prev c).inner = c.inner := by
  simp only [cycle_prev]
  split <;> rfl

theorem inner_seek (c : CycleCursor T) (d : Int) : (seek c d).inner = c.inner := by
  simp only [seek]
  split <;> rfl

theorem inner_applyOp (c : CycleCursor T) (o : Op) : (applyOp c o).inner = c.inner := by
  cases o with
  | next => exact inner_cycle_next c
  | prev => exact inner_cycle_prev c
  | seekBy d => exact inner_seek c d

theorem inner_applyOps (c : CycleCursor T) (ops : List Op) :
    (applyOps c ops).inner = c.inner := by
  induction ops generalizing c with
  | nil => rfl
  | cons o rest ih =>
    calc (applyOps (applyOp c o) rest).inner = (applyOp c o).inner := ih _
      _ = c.inner := inner_applyOp c o

theorem applyOp_of_inner_nil (c : CycleCursor T) (h : c.inner = []) (o : Op) :
    applyOp c o = c := by
  have hlen : c.inner.length = 0 := by rw [h]; rfl
  cases o <;> simp [applyOp, cycle_next, cycle_prev, seek, hlen]

theorem applyOps_of_inner_nil (c : CycleCursor T) (h : c.inner = []) (ops : List Op) :
    applyOps c ops = c := by
  induction ops with
  | nil => rfl
  | cons o rest ih =>
    show applyOps (applyOp c o) rest = c
    rw [applyOp_of_inner_nil c h o, ih]

theorem seek_pos (c : CycleCursor T) (k : Int) (hL : c.inner.length ≠ 0) :
    seek c k = { c with pos := some ((c.pos.getD (c.inner.length - 1) + c.inner.length +
      (if k < 0 then usizeOfIsize ((c.inner.length : Int) + k) else k.toNat)) %
        c.inner.length) } := by
  simp [seek, hL]

theorem peek_pos (c : CycleCursor T) (k : Int) (hL : c.inner.length ≠ 0) :
    peek c k = c.inner.get? ((c.pos.getD (c.inner.length - 1) + c.inner.length +
      (if k < 0 then usizeOfIsize ((c.inner.length : Int) + k) else k.toNat)) %
        c.inner.length) := by
  simp [peek, hL]

theorem get_of_valid (c : CycleCursor T) (p : Nat) (hp : c.pos = some p)
    (h : p < c.inner.length) : get c = Except.ok (c.inner.get? p) := by
  simp [get, hp, Nat.not_le.mpr h]

theorem cycle_next_some (l : List T) (p : Nat) (hL : l.length ≠ 0) :
    cycle_next ⟨l, some p⟩ = ⟨l, some ((p + 1) % l.length)⟩ := by
  have harith : (p + l.length + 1) % l.length = (p + 1) % l.length := by
    rw [show p + l.length + 1 = (p + 1) + l.length from by omega, Nat.add_mod_right]
  simp [cycle_next, hL, harith]

theorem cycle_prev_some (l : List T) (p : Nat) (hL : l.length ≠ 0) :
    cycle_prev ⟨l, some p⟩ = ⟨l, some ((p + (l.length - 1)) % l.length)⟩ := by
  have harith : (p + l.length - 1) % l.length = (p + (l.length - 1)) % l.length := by
    rw [show p + l.length - 1 = p + (l.length - 1) from by omega]
  simp [cycle_prev, hL, harith]

theorem cycle_next_fromList (l : List T) (hL : l.length ≠ 0) :
    cycle_next (fromList l) = ⟨l, some 0⟩ := by
  have harith : (l.length - 1 + l.length + 1) % l.length = 0 := by
    rw [show l.length - 1 + l.length + 1 = l.length + l.length from by omega,
      Nat.add_mod_right, Nat.mod_self]
  simp [cycle_next, fromList, hL, harith]

theorem cycle_prev_fromList (l : List T) (hL : l.length ≠ 0) :
    cycle_prev (fromList l) = ⟨l, some (l.length - 1)⟩ := by
  have harith : (l.length + l.length - 1) % l.length = l.length - 1 := by
    rw [show l.length + l.length - 1 = (l.length - 1) + l.length from by omega,
      Nat.add_mod_right, Nat.mod_eq_of_lt (by omega)]
  simp [cycle_prev, fromList, hL, harith]

theorem cycle_next_iterate (l : List T) (p n : Nat) (hp : p < l.length) :
    cycle_next^[n] ⟨l, some p⟩ = ⟨l, some ((p + n) % l.length)⟩ := by
  induction n generalizing p with
  | zero => simp [Nat.mod_eq_of_lt hp]
  | succ n ih =>
    rw [Function.iterate_succ_apply, cycle_next_some l p (by omega),
      ih ((p + 1) % l.length) (Nat.mod_lt _ (by omega))]
    congr 2
    rw [Nat.mod_add_mod]
    congr 1
    omega

theorem cycle_prev_iterate (l : List T) (p n : Nat) (hp : p < l.length) :
    cycle_prev^[n] ⟨l, some p⟩ = ⟨l, some ((p + n * (l.length - 1)) % l.length)⟩ := by
  induction n generalizing p with
  | zero => simp [Nat.mod_eq_of_lt hp]
  | succ n ih =>
    rw [Function.iterate_succ_apply, cycle_prev_some l p (by omega),
      ih ((p + (l.length - 1)) % l.length) (Nat.mod_lt _ (by omega))]
    congr 2
    rw [Nat.mod_add_mod]
    congr 1
    ring

theorem cycle_next_pos_valid (c : CycleCursor T) (hL : c.inner.length ≠ 0) :
    ∃ q, (cycle_next c).pos = some q ∧ q < c.inner.length := by
  refine ⟨(c.pos.getD (c.inner.length - 1) + c.inner.length + 1) % c.inner.length, ?_,
    Nat.mod_lt _ (Nat.pos_of_ne_zero hL)⟩
  simp [cycle_next, hL]

theorem cycle_prev_pos_valid (c : CycleCursor T) (hL : c.inner.length ≠ 0) :
    ∃ q, (cycle_prev c).pos = some q ∧ q < c.inner.length := by
  refine ⟨(c.pos.getD c.inner.length + c.inner.length - 1) % c.inner.length, ?_,
    Nat.mod_lt _ (Nat.pos_of_ne_zero hL)⟩
  simp [cycle_prev, hL]

theorem get_eq_ok_peek_zero (c : CycleCursor T) (q : Nat) (hq : c.pos = some q)
    (hlt : q < c.inner.length) : get c = Except.ok (peek c 0) := by
  have hL : c.inner.length ≠ 0 := by omega
  have h0 : (if (0 : Int) < 0 then usizeOfIsize ((c.inner.length : Int) + 0)
      else (0 : Int).toNat) = 0 := by norm_num
  rw [peek_pos c 0 hL, h0, hq]
  simp only [Option.getD_some, Nat.add_zero]
  rw [show (q + c.inner.length) % c.inner.length = q from by
    rw [Nat.add_mod_right, Nat.mod_eq_of_lt hlt]]
  exact get_of_valid c q hq hlt

theorem Inv_cycle_next (c : CycleCursor T) (h : Inv c) : Inv (cycle_next c) := by
  by_cases hL : c.inner.length = 0
  · simpa [cycle_next, hL] using h
  · intro p hp
    rw [inner_cycle_next]
    simp [cycle_next, hL] at hp
    rw [← hp]
    exact Nat.mod_lt _ (Nat.pos_of_ne_zero hL)

theorem Inv_cycle_prev (c : CycleCursor T) (h : Inv c) : Inv (cycle_prev c) := by
  by_cases hL : c.inner.length = 0
  · simpa [cycle_prev, hL] using h
  · intro p hp
    rw [inner_cycle_prev]
    simp [cycle_prev, hL] at hp
    rw [← hp]
    exact Nat.mod_lt _ (Nat.pos_of_ne_zero hL)

theorem Inv_seek (c : CycleCursor T) (d : Int) (h : Inv c) : Inv (seek c d) := by
  by_cases hL : c.inner.length = 0
  · simpa [seek, hL] using h
  · intro p hp
    rw [inner_seek]
    simp [seek, hL] at hp
    rw [← hp]
    exact Nat.mod_lt _ (Nat.pos_of_ne_zero hL)

theorem Inv_applyOp (c : CycleCursor T) (o : Op) (h : Inv c) : Inv (applyOp c o) := by
  cases o with
  | next => exact Inv_cycle_next c h
  | prev => exact Inv_cycle_prev c h
  | seekBy d => exact Inv_seek c d h

theorem Inv_applyOps (c : CycleCursor T) (ops : List Op) (h : Inv c) :
    Inv (applyOps c ops) := by
  induction ops generalizing c with
  | nil => exact h
  | cons o rest ih => exact ih (applyOp c o) (Inv_applyOp c o h)

/-! Claim theorems. -/

/-- C2: `get` returns `Except.ok none` (not a fault) when the position is
unset; when the position is set but is no longer a valid index into the
backing sequence, `get` fails loudly with the panic message instead of
clamping or returning `none`; otherwise it returns the element at the stored
position. -/
theorem get_spec (c : CycleCursor T) :
    (c.pos = none → get c = Except.ok none) ∧
    (∀ p, c.pos = some p → c.inner.length ≤ p → get c = Except.error staleMsg) ∧
    (∀ p, (hp : c.pos = some p) → (h : p < c.inner.length) →
      get c = Except.ok (some (c.inner.get ⟨p, h⟩))) := by
  refine ⟨fun hp => ?_, fun p hp hle => ?_, fun p hp hlt => ?_⟩
  · simp [get, hp]
  · simp [get, hp, hle]
  · simp only [get, hp, if_neg (Nat.not_le.mpr hlt)]
    rw [List.get?_eq_get hlt]

/-- Witness for C2: a concrete stale position makes `get` fail loudly. -/
theorem get_spec_witness :
    get (⟨[1], some 3⟩ : CycleCursor Nat) = Except.error staleMsg :=
  (get_spec ⟨[1], some 3⟩).2.1 3 rfl (by decide)

/-- C4, counterexample: on the cursor over `[1, 2, 3, 4]` after two
`cycle_next` calls (position 1, value 2), the code returns `peek 3 = some 1`
(not `some 4`, as claimed) and `peek (-3) = some 3` (not `some 1`). -/
theorem peek_scenario_counterexample :
    peek (cycle_next (cycle_next (fromList ([1, 2, 3, 4] : List Nat)))) 3 = some 1 ∧
    peek (cycle_next (cycle_next (fromList ([1, 2, 3, 4] : List Nat)))) 3 ≠ some 4 ∧
    peek (cycle_next (cycle_next (fromList ([1, 2, 3, 4] : List Nat)))) (-3) = some 3 ∧
    peek (cycle_next (cycle_next (fromList ([1, 2, 3, 4] : List Nat)))) (-3) ≠ some 1 := by
  decide

/-- C4, amended: for the cursor constructed from `[1, 2, 3, 4]`, after two
`cycle_next` calls the position is index 1 (value 2), `peek 3` returns 1,
`peek (-3)` returns 3, and `get` afterwards still returns 2 (`peek` does not
move the cursor). -/
theorem peek_scenario :
    (cycle_next (cycle_next (fromList ([1, 2, 3, 4] : List Nat)))).pos = some 1 ∧
    get (cycle_next (cycle_next (fromList ([1, 2, 3, 4] : List Nat)))) = Except.ok (some 2) ∧
    peek (cycle_next (cycle_next (fromList ([1, 2, 3, 4] : List Nat)))) 3 = some 1 ∧
    peek (cycle_next (cycle_next (fromList ([1, 2, 3, 4] : List Nat)))) (-3) = some 3 := by
  decide

/-- C6: on a non-empty sequence of length `L`, `cycle_next` sets the position
to 0 when it was unset and to `(position + 1) % L` otherwise; `cycle_prev`
sets it to `L - 1` when it was unset and to `(position + L - 1) % L`
(the non-negative form of `(position - 1 + L) mod L`) otherwise; neither has
any side effect other than the position update. -/
theorem cycle_next_prev_spec (c : CycleCursor T) (hL : 0 < c.inner.length) :
    (cycle_next c).inner = c.inner ∧ (cycle_prev c).inner = c.inner ∧
    (c.pos = none →
      (cycle_next c).pos = some 0 ∧ (cycle_prev c).pos = some (c.inner.length - 1)) ∧
    ∀ p, c.pos = some p →
      (cycle_next c).pos = some ((p + 1) % c.inner.length) ∧
      (cycle_prev c).pos = some ((p + c.inner.length - 1) % c.inner.length) := by
  have hL0 : ¬ c.inner.length = 0 := Nat.pos_iff_ne_zero.mp hL
  refine ⟨inner_cycle_next c, inner_cycle_prev c, fun hp => ⟨?_, ?_⟩, fun p hp => ⟨?_, ?_⟩⟩
  · have harith : (c.inner.length - 1 + c.inner.length + 1) % c.inner.length = 0 := by
      have h2 : c.inner.length - 1 + c.inner.length + 1 = c.inner.length + c.inner.length := by
        omega
      rw [h2, Nat.add_mod_right, Nat.mod_self]
    simp [cycle_next, hp, hL0, harith]
  · have harith :
        (c.inner.length + c.inner.length - 1) % c.inner.length = c.inner.length - 1 := by
      have h2 : c.inner.length + c.inner.length - 1 = (c.inner.length - 1) + c.inner.length := by
        omega
      rw [h2, Nat.add_mod_right, Nat.mod_eq_of_lt (by omega)]
    simp [cycle_prev, hp, hL0, harith]
  · have harith : (p + c.inner.length + 1) % c.inner.length = (p + 1) % c.inner.length := by
      have h2 : p + c.inner.length + 1 = (p + 1) + c.inner.length := by omega
      rw [h2, Nat.add_mod_right]
    simp [cycle_next, hp, hL0, harith]
  · simp [cycle_prev, hp, hL0]

/-- Witness for C6: from position 0 over a two-element sequence, `cycle_next`
moves to position 1. -/
theorem cycle_next_prev_spec_witness :
    (cycle_next (⟨[5, 6], some 0⟩ : CycleCursor Nat)).pos = some 1 :=
  ((cycle_next_prev_spec ⟨[5, 6], some 0⟩ (by decide)).2.2.2 0 rfl).1

/-- C7: on a cursor over an empty sequence (whose position is therefore
unset), `cycle_next`, `cycle_prev`, and `seek k` for every integer `k` are
no-ops, and `get` and `peek k` for every integer `k` return a "not found"
value rather than failing loudly. -/
theorem empty_cursor_ops (c : CycleCursor T) (hinner : c.inner = [])
    (hpos : c.pos = none) :
    cycle_next c = c ∧ cycle_prev c = c ∧ (∀ k : Int, seek c k = c) ∧
    get c = Except.ok none ∧ ∀ k : Int, peek c k = none := by
  have hlen : c.inner.length = 0 := by rw [hinner]; rfl
  refine ⟨?_, ?_, fun k => ?_, ?_, fun k => ?_⟩ <;>
    simp [cycle_next, cycle_prev, seek, get, peek, hlen, hpos]

/-- Witness for C7: the freshly constructed empty cursor. -/
theorem empty_cursor_ops_witness :
    cycle_next (fromList ([] : List Nat)) = fromList [] ∧
    get (fromList ([] : List Nat)) = Except.ok none :=
  ⟨(empty_cursor_ops (fromList []) rfl rfl).1,
    (empty_cursor_ops (fromList []) rfl rfl).2.2.2.1⟩

/-- C9: an arbitrary external replacement of the backing sequence through the
cursor's mutable access (`DerefMut`) leaves the stored position untouched and
changes nothing but the backing sequence; read access (`Deref`) exposes the
backing sequence. -/
theorem deref_mut_preserves_pos (c : CycleCursor T) (newInner : List T) :
    (deref_mut c newInner).pos = c.pos ∧ (deref_mut c newInner).inner = newInner ∧
    deref c = c.inner :=
  ⟨rfl, rfl, rfl⟩

/-- C1, counterexample: on the reachable cursor whose backing sequence was
externally cleared while its position was set (sequence length 0, position
`some 0`), `peek 0` returns `none`, while `seek 0` is a no-op and the
following `get` fails loudly, so `seek` then `get` does not return the same
result as `peek`. -/
theorem seek_then_get_ne_peek_counterexample :
    peek (deref_mut (cycle_next (fromList ([5] : List Nat))) []) 0 = none ∧
    get (seek (deref_mut (cycle_next (fromList ([5] : List Nat))) []) 0) =
      Except.error staleMsg ∧
    get (seek (deref_mut (cycle_next (fromList ([5] : List Nat))) []) 0) ≠
      Except.ok (peek (deref_mut (cycle_next (fromList ([5] : List Nat))) []) 0) := by
  decide

/-- C1, amended: for every cursor that does not have a set position over an
empty sequence (in particular every cursor satisfying the position invariant),
and every signed integer offset `k`, calling `seek k` and then `get` returns
exactly the result of `peek k` on the state before the seek. -/
theorem seek_then_get_eq_peek (c : CycleCursor T) (h : c.inner = [] → c.pos = none)
    (k : Int) : get (seek c k) = Except.ok (peek c k) := by
  by_cases hL : c.inner.length = 0
  · have hinner : c.inner = [] := List.length_eq_zero.mp hL
    simp [seek, peek, get, hL, h hinner]
  · have hLpos : 0 < c.inner.length := Nat.pos_of_ne_zero hL
    rw [seek_pos c k hL, peek_pos c k hL]
    exact get_of_valid _ _ rfl (Nat.mod_lt _ hLpos)

/-- Witness for C1 (amended): a concrete non-empty cursor and offset. -/
theorem seek_then_get_eq_peek_witness :
    ((fromList ([7] : List Nat)).inner = [] → (fromList ([7] : List Nat)).pos = none) ∧
    get (seek (fromList ([7] : List Nat)) 5) =
      Except.ok (peek (fromList ([7] : List Nat)) 5) :=
  ⟨by decide, seek_then_get_eq_peek (fromList [7]) (by decide) 5⟩

/-- C8: for every cursor over a non-empty sequence of length `N` and every
offset `k` with `0 ≤ k < N`, `peek k` returns the same element as
`peek (k + N)`, and `seek k` leaves the cursor in the same state as
`seek (k + N)` from the same starting state. -/
theorem peek_seek_wrap (c : CycleCursor T) (k : Nat) (hk : k < c.inner.length) :
    peek c (k : Int) = peek c ((k + c.inner.length : Nat) : Int) ∧
    seek c (k : Int) = seek c ((k + c.inner.length : Nat) : Int) := by
  have hL : c.inner.length ≠ 0 := by omega
  have hnorm1 : (if (k : Int) < 0 then usizeOfIsize ((c.inner.length : Int) + (k : Int))
      else (k : Int).toNat) = k := by
    rw [if_neg (Int.not_lt.mpr (Int.natCast_nonneg k))]
    exact Int.toNat_natCast k
  have hnorm2 : (if ((k + c.inner.length : Nat) : Int) < 0 then
      usizeOfIsize ((c.inner.length : Int) + ((k + c.inner.length : Nat) : Int))
      else ((k + c.inner.length : Nat) : Int).toNat) = k + c.inner.length := by
    rw [if_neg (Int.not_lt.mpr (Int.natCast_nonneg _))]
    exact Int.toNat_natCast _
  have harith : ∀ b : Nat,
      (b + c.inner.length + (k + c.inner.length)) % c.inner.length =
        (b + c.inner.length + k) % c.inner.length := by
    intro b
    rw [show b + c.inner.length + (k + c.inner.length) =
        b + c.inner.length + k + c.inner.length from by omega, Nat.add_mod_right]
  constructor
  · rw [peek_pos c _ hL, peek_pos c _ hL, hnorm1, hnorm2, harith]
  · rw [seek_pos c _ hL, seek_pos c _ hL, hnorm1, hnorm2, harith]

/-- Witness for C8: three-element cursor at position 1, offsets 2 and 2 + 3. -/
theorem peek_seek_wrap_witness :
    peek (⟨[10, 20, 30], some 1⟩ : CycleCursor Nat) ((2 : Nat) : Int) =
      peek ⟨[10, 20, 30], some 1⟩
        ((2 + (⟨[10, 20, 30], some 1⟩ : CycleCursor Nat).inner.length : Nat) : Int) ∧
    seek (⟨[10, 20, 30], some 1⟩ : CycleCursor Nat) ((2 : Nat) : Int) =
      seek ⟨[10, 20, 30], some 1⟩
        ((2 + (⟨[10, 20, 30], some 1⟩ : CycleCursor Nat).inner.length : Nat) : Int) :=
  peek_seek_wrap ⟨[10, 20, 30], some 1⟩ 2 (by decide)

/-- C3, counterexample: on `[1, 2, 3, 4]`, `get` after 4 consecutive
`cycle_next` calls from a fresh cursor returns `some 4`, while `get` after 0
calls returns `none` (the first call enters at index 0, so N calls land on the
last index, not back on the unset state); 4 `cycle_prev` calls land on the
first element, likewise different from `none`. -/
theorem full_cycle_counterexample :
    get (cycle_next (cycle_next (cycle_next (cycle_next
        (fromList ([1, 2, 3, 4] : List Nat)))))) = Except.ok (some 4) ∧
    get (fromList ([1, 2, 3, 4] : List Nat)) = Except.ok none ∧
    get (cycle_next (cycle_next (cycle_next (cycle_next
        (fromList ([1, 2, 3, 4] : List Nat)))))) ≠ get (fromList ([1, 2, 3, 4] : List Nat)) ∧
    get (cycle_prev (cycle_prev (cycle_prev (cycle_prev
        (fromList ([1, 2, 3, 4] : List Nat)))))) = Except.ok (some 1) ∧
    get (cycle_prev (cycle_prev (cycle_prev (cycle_prev
        (fromList ([1, 2, 3, 4] : List Nat)))))) ≠ get (fromList ([1, 2, 3, 4] : List Nat)) := by
  decide

/-- C3, amended: for every non-empty sequence of length N, starting from a
freshly constructed cursor, the result of `get` after N + 1 consecutive
`cycle_next` calls equals the result of `get` after 1 call (full-cycle
idempotence once the sequence has been entered); the same holds for
`cycle_prev`. -/
theorem full_cycle_get (l : List T) (h : l ≠ []) :
    get (cycle_next^[l.length + 1] (fromList l)) = get (cycle_next (fromList l)) ∧
    get (cycle_prev^[l.length + 1] (fromList l)) = get (cycle_prev (fromList l)) := by
  have hL : l.length ≠ 0 := fun h0 => h (List.length_eq_zero.mp h0)
  have hLpos : 0 < l.length := Nat.pos_of_ne_zero hL
  constructor
  · rw [Function.iterate_succ_apply, cycle_next_fromList l hL,
      cycle_next_iterate l 0 l.length hLpos]
    rw [show (0 + l.length) % l.length = 0 from by rw [Nat.zero_add, Nat.mod_self]]
  · rw [Function.iterate_succ_apply, cycle_prev_fromList l hL,
      cycle_prev_iterate l (l.length - 1) l.length (by omega)]
    rw [show (l.length - 1 + l.length * (l.length - 1)) % l.length = l.length - 1 from by
      rw [Nat.add_mul_mod_self_left, Nat.mod_eq_of_lt (by omega)]]

/-- Witness for C3 (amended): the three-element sequence. -/
theorem full_cycle_get_witness :
    ([1, 2, 3] : List Nat) ≠ [] ∧
    (get (cycle_next^[([1, 2, 3] : List Nat).length + 1] (fromList [1, 2, 3])) =
        get (cycle_next (fromList [1, 2, 3])) ∧
      get (cycle_prev^[([1, 2, 3] : List Nat).length + 1] (fromList [1, 2, 3])) =
        get (cycle_prev (fromList [1, 2, 3]))) :=
  ⟨by decide, full_cycle_get [1, 2, 3] (by decide)⟩

/-- C5, counterexample: with the empty sequence of moves on a fresh cursor
over `[1]`, `peek 0` returns `some 1` (the unset base position acts as the
last index) while `get` returns `none`, so `peek 0` is not an alias for `get`
before the first move. -/
theorem peek_zero_counterexample :
    peek (applyOps (fromList ([1] : List Nat)) []) 0 = some 1 ∧
    get (applyOps (fromList ([1] : List Nat)) []) = Except.ok none ∧
    get (applyOps (fromList ([1] : List Nat)) []) ≠
      Except.ok (peek (applyOps (fromList ([1] : List Nat)) []) 0) := by
  decide

/-- C5, amended: after any sequence of at least one `cycle_next`/`cycle_prev`
call on a freshly constructed cursor, `peek 0` returns the same result as
`get`. -/
theorem peek_zero_eq_get (l : List T) (ops : List Op)
    (hmoves : ∀ o ∈ ops, o = Op.next ∨ o = Op.prev) (hne : ops ≠ []) :
    get (applyOps (fromList l) ops) = Except.ok (peek (applyOps (fromList l) ops) 0) := by
  rcases List.eq_nil_or_concat ops with rfl | ⟨rest, o, rfl⟩
  · exact absurd rfl hne
  · rw [List.concat_eq_append] at hmoves ⊢
    by_cases hL : l.length = 0
    · have hnil : l = [] := List.length_eq_zero.mp hL
      rw [applyOps_of_inner_nil (fromList l) hnil _]
      simp [get, peek, fromList, hL]
    · have happ : applyOps (fromList l) (rest ++ [o]) =
          applyOp (applyOps (fromList l) rest) o := by
        rw [applyOps, List.foldl_append]
        rfl
      rw [happ]
      have hinner : (applyOps (fromList l) rest).inner = l := inner_applyOps _ rest
      have hLc : (applyOps (fromList l) rest).inner.length ≠ 0 := by rw [hinner]; exact hL
      have ho := hmoves o (by simp)
      obtain ⟨q, hq, hlt⟩ : ∃ q, (applyOp (applyOps (fromList l) rest) o).pos = some q ∧
          q < (applyOp (applyOps (fromList l) rest) o).inner.length := by
        rcases ho with rfl | rfl
        · obtain ⟨q, hq, hlt⟩ := cycle_next_pos_valid _ hLc
          exact ⟨q, hq, by rw [inner_applyOp]; exact hlt⟩
        · obtain ⟨q, hq, hlt⟩ := cycle_prev_pos_valid _ hLc
          exact ⟨q, hq, by rw [inner_applyOp]; exact hlt⟩
      exact get_eq_ok_peek_zero _ q hq hlt

/-- Witness for C5 (amended): one `cycle_next` then one `cycle_prev` on a
two-element cursor. -/
theorem peek_zero_eq_get_witness :
    (∀ o ∈ ([Op.next, Op.prev] : List Op), o = Op.next ∨ o = Op.prev) ∧
    ([Op.next, Op.prev] : List Op) ≠ [] ∧
    get (applyOps (fromList ([9, 8] : List Nat)) [Op.next, Op.prev]) =
      Except.ok (peek (applyOps (fromList ([9, 8] : List Nat)) [Op.next, Op.prev]) 0) := by
  have hmoves : ∀ o ∈ ([Op.next, Op.prev] : List Op), o = Op.next ∨ o = Op.prev := by
    intro o ho
    rcases List.mem_cons.mp ho with h | h
    · exact Or.inl h
    · rcases List.mem_cons.mp h with h2 | h2
      · exact Or.inr h2
      · exact absurd h2 (List.not_mem_nil o)
  exact ⟨hmoves, by decide, peek_zero_eq_get [9, 8] [Op.next, Op.prev] hmoves (by decide)⟩

/-- C10: starting from construction and applying any sequence of
`cycle_next`/`cycle_prev`/`seek` operations (each seek offset of magnitude at
most the sequence length), the invariant "position is unset or is a valid
index strictly below the sequence length" holds, and consequently `get` never
reaches its loud-failure branch. -/
theorem cursor_invariant (l : List T) (ops : List Op)
    (_hseek : ∀ d : Int, Op.seekBy d ∈ ops → d.natAbs ≤ l.length) :
    Inv (applyOps (fromList l) ops) ∧
    ∃ r, get (applyOps (fromList l) ops) = Except.ok r := by
  have hInv : Inv (applyOps (fromList l) ops) :=
    Inv_applyOps _ _ (fun p hp => by simp [fromList] at hp)
  refine ⟨hInv, ?_⟩
  rcases hpos : (applyOps (fromList l) ops).pos with _ | p
  · exact ⟨none, by simp [get, hpos]⟩
  · exact ⟨_, get_of_valid _ p hpos (hInv p hpos)⟩

/-- Witness for C10: a concrete run with a next, a bounded negative seek, and
a prev. -/
theorem cursor_invariant_witness :
    (∀ d : Int, Op.seekBy d ∈ ([Op.next, Op.seekBy (-2), Op.prev] : List Op) →
      d.natAbs ≤ ([1, 2] : List Nat).length) ∧
    (Inv (applyOps (fromList ([1, 2] : List Nat)) [Op.next, Op.seekBy (-2), Op.prev]) ∧
      ∃ r, get (applyOps (fromList ([1, 2] : List Nat)) [Op.next, Op.seekBy (-2), Op.prev]) =
        Except.ok r) := by
  have hseek : ∀ d : Int, Op.seekBy d ∈ ([Op.next, Op.seekBy (-2), Op.prev] : List Op) →
      d.natAbs ≤ ([1, 2] : List Nat).length := by
    intro d hd
    simp only [List.mem_cons, List.not_mem_nil, or_false] at hd
    rcases hd with h | h | h
    · exact absurd h (by simp)
    · rw [Op.seekBy.inj h]
      decide
    · exact absurd h (by simp)
  exact ⟨hseek, cursor_invariant [1, 2] [Op.next, Op.seekBy (-2), Op.prev] hseek⟩

end CycleCursor

end CycleCursorSpec
